import Mathlib

/-!
Shallow embedding of `data/process_data.py` (an ETL script built on pandas):
`load_data` (CSV read + inner merge on `id`), `clean_data` (split the
`categories` column, derive column names from row 0, coerce each token's last
character to an integer, drop duplicates) and `save_data` (write the table to
a SQL store, replacing the `disaster_messages` relation).

Tables are lists of records.  pandas-specific behaviour is modelled exactly:
`Series.str.split(';', expand=True)` produces as many columns as the maximal
token count over all rows, padding shorter rows with `None`; iterating row 0
over a padded cell raises `AttributeError` (`None` has no `.split`);
`astype(str)` turns `None` into the string `"None"`; `.str[-1]` of the empty
string is `NaN`; `pd.to_numeric` maps `NaN` to `NaN`, a digit character to its
value and anything else to a `ValueError`; selecting a duplicated column label
yields a DataFrame, whose missing `.str` raises `AttributeError`;
`drop_duplicates` keeps the first occurrence of each row.
-/

deriving instance DecidableEq for Except

/-- A row of the messages CSV (`id`, `message`, optional `original`, `genre`). -/
structure MessageRow where
  id : Int
  message : String
  original : Option String
  genre : String
deriving DecidableEq

/-- A row of the categories CSV (`id`, `categories`). -/
structure CategoryRow where
  id : Int
  categories : String
deriving DecidableEq

/-- A row of the merged dataframe returned by `load_data`. -/
structure JoinedRow where
  id : Int
  message : String
  original : Option String
  genre : String
  categories : String
deriving DecidableEq

/-- Combining one messages row with one categories row of the same `id`. -/
def mergeRows (m : MessageRow) (c : CategoryRow) : JoinedRow :=
  ⟨m.id, m.message, m.original, m.genre, c.categories⟩

/-- `messages.merge(categories, how='inner', on='id')`: each messages row in
order is paired with every categories row carrying the same `id`. -/
def load_data (messages : List MessageRow) (categories : List CategoryRow) :
    List JoinedRow :=
  messages.flatMap (fun m =>
    (categories.filter (fun c => decide (c.id = m.id))).map (mergeRows m))

/-- The Python exceptions that `clean_data` can raise. -/
inductive PdError where
  | indexError
  | attributeError
  | valueError
deriving DecidableEq

/-- Python's `str.split(sep)` for a one-character separator:
`"a;;b".split(';') = ["a","","b"]`, `"".split(';') = [""]`. -/
def splitChar (sep : Char) : List Char → List (List Char)
  | [] => [[]]
  | c :: cs =>
    if c = sep then [] :: splitChar sep cs
    else
      match splitChar sep cs with
      | [] => [[c]]
      | t :: ts => (c :: t) :: ts

/-- `df['categories'].str.split(';')` applied to one row. -/
def tokensOf (r : JoinedRow) : List (List Char) :=
  splitChar ';' r.categories.data

/-- The number of columns produced by `str.split(';', expand=True)`:
the maximal token count over all rows. -/
def nCols (df : List JoinedRow) : Nat :=
  df.foldr (fun r acc => max (tokensOf r).length acc) 0

/-- `col.split('-')[0]`: the category name part of one token. -/
def namePart (tok : List Char) : String :=
  String.mk ((splitChar '-' tok).headD [])

/-- Lines 40-44 of `process_data.py`: `row = categories.iloc[0]` followed by
`category_colnames = [col.split('-')[0] for col in row]`.  An empty frame
makes `iloc[0]` raise `IndexError`; if row 0 has fewer tokens than the widest
row, the expanded frame pads row 0 with `None`, and `None.split` raises
`AttributeError`. -/
def deriveNames (df : List JoinedRow) : Except PdError (List String) :=
  match df with
  | [] => .error .indexError
  | r0 :: _ =>
    if (tokensOf r0).length = nCols df then
      .ok ((tokensOf r0).map namePart)
    else .error .attributeError

/-- `astype(str)` on one cell of the expanded frame: the `None` pad of a short
row becomes the string `"None"`. -/
def strCast : Option (List Char) → List Char
  | none => "None".data
  | some s => s

/-- `pd.to_numeric` applied to `.str[-1]` of one cell: `NaN` (empty string)
passes through, a digit parses, anything else raises `ValueError`. -/
def toNumericChar : Option Char → Except PdError (Option Int)
  | none => .ok none
  | some c =>
    if c.isDigit then .ok (some (Int.ofNat (c.toNat - '0'.toNat)))
    else .error .valueError

/-- `pd.to_numeric(categories[column].astype(str).str[-1])` on one cell. -/
def coerceCell (cell : Option (List Char)) : Except PdError (Option Int) :=
  toNumericChar (strCast cell).getLast?

/-- Column `j` of the expanded frame (`None` where a row is too short). -/
def colCells (df : List JoinedRow) (j : Nat) : List (Option (List Char)) :=
  df.map (fun r => (tokensOf r)[j]?)

/-- `pd.to_numeric` over one whole column, top to bottom; the first bad cell
raises. -/
def coerceColumn : List (Option (List Char)) → Except PdError (List (Option Int))
  | [] => .ok []
  | cell :: rest =>
    match coerceCell cell with
    | .error e => .error e
    | .ok v =>
      match coerceColumn rest with
      | .error e => .error e
      | .ok vs => .ok (v :: vs)

/-- The loop `for column in categories:` over the listed column positions.
A duplicated column label makes `categories[column]` a DataFrame and `.str`
raise `AttributeError`; otherwise the column is coerced cell by cell and the
first failure propagates. -/
def firstColError (names : List String) (df : List JoinedRow) :
    List Nat → Option PdError
  | [] => none
  | j :: js =>
    if 1 < names.count (names.getD j "") then some .attributeError
    else
      match coerceColumn (colCells df j) with
      | .error e => some e
      | .ok _ => firstColError names df js

/-- The value a cell holds once the loop has succeeded. -/
def cellValue (cell : Option (List Char)) : Option Int :=
  match coerceCell cell with
  | .ok v => v
  | .error _ => none

/-- A row of the cleaned dataframe: the original columns with `categories`
replaced by the coerced per-category values (positional, `none` = `NaN`). -/
structure CleanedRow where
  id : Int
  message : String
  original : Option String
  genre : String
  cats : List (Option Int)
deriving DecidableEq

/-- The cleaned dataframe: derived category column names plus rows. -/
structure CleanTable where
  catNames : List String
  rows : List CleanedRow
deriving DecidableEq

/-- One input row after dropping `categories` and concatenating the coerced
columns (`pd.concat([df, categories], axis=1)` aligned on the row index). -/
def cleanRow (n : Nat) (r : JoinedRow) : CleanedRow :=
  ⟨r.id, r.message, r.original, r.genre,
   (List.range n).map (fun j => cellValue (tokensOf r)[j]?)⟩

/-- All rows after the replace step, before deduplication. -/
def cleanedRows (df : List JoinedRow) : List CleanedRow :=
  df.map (cleanRow (nCols df))

/-- `drop_duplicates` keeping first occurrences, with an accumulator of the
rows already seen. -/
def dedupSeen {α : Type} [DecidableEq α] (seen : List α) : List α → List α
  | [] => []
  | a :: l => if a ∈ seen then dedupSeen seen l else a :: dedupSeen (a :: seen) l

/-- `df.drop_duplicates()`: remove rows identical across every column,
keeping the first occurrence. -/
def dropDuplicates {α : Type} [DecidableEq α] (l : List α) : List α :=
  dedupSeen [] l

/-- The tail of `clean_data` once column names are derived: run the coercion
loop over every column, then replace `categories` by the new columns and
remove duplicate rows. -/
def cleanBody (names : List String) (df : List JoinedRow) :
    Except PdError CleanTable :=
  match firstColError names df (List.range (nCols df)) with
  | some e => .error e
  | none => .ok ⟨names, dropDuplicates (cleanedRows df)⟩

/-- `clean_data(df)` of `process_data.py`, lines 37-58. -/
def clean_data (df : List JoinedRow) : Except PdError CleanTable :=
  match deriveNames df with
  | .error e => .error e
  | .ok names => cleanBody names df

/-- A value stored in the SQL database. -/
inductive SqlValue where
  | int (i : Int)
  | text (s : String)
  | null
deriving DecidableEq

/-- A relation of the SQL store: a header and its rows. -/
structure SqlTable where
  header : List String
  rows : List (List SqlValue)
deriving DecidableEq

/-- The SQLite database: a map from relation names to tables. -/
def Store : Type := String → Option SqlTable

/-- The `if_exists` modes of `DataFrame.to_sql`. -/
inductive IfExists where
  | failMode
  | replaceMode
  | appendMode

/-- The table with the surrogate row-index column `to_sql` adds when
`index=True`. -/
def withIndex (t : SqlTable) : SqlTable :=
  ⟨"index" :: t.header, t.rows.enum.map (fun p => SqlValue.int p.1 :: p.2)⟩

/-- `DataFrame.to_sql(name, engine, index=..., if_exists=...)`. -/
def to_sql (t : SqlTable) (name : String) (store : Store) (mode : IfExists)
    (index : Bool) : Except PdError Store :=
  let t' := match index with
    | true => withIndex t
    | false => t
  match mode with
  | .replaceMode => .ok (fun n => if n = name then some t' else store n)
  | .appendMode =>
    match store name with
    | none => .ok (fun n => if n = name then some t' else store n)
    | some old =>
      if old.header = t'.header then
        .ok (fun n => if n = name then some ⟨old.header, old.rows ++ t'.rows⟩
             else store n)
      else .error .valueError
  | .failMode =>
    match store name with
    | none => .ok (fun n => if n = name then some t' else store n)
    | some _ => .error .valueError

/-- The cleaned dataframe as the SQL relation `to_sql` writes: the merged
columns in order, then one column per category name. -/
def sqlOfClean (t : CleanTable) : SqlTable :=
  ⟨"id" :: "message" :: "original" :: "genre" :: t.catNames,
   t.rows.map (fun r =>
     SqlValue.int r.id :: SqlValue.text r.message ::
     (match r.original with
      | some s => SqlValue.text s
      | none => SqlValue.null) ::
     SqlValue.text r.genre :: r.cats.map (fun v =>
       match v with
       | some i => SqlValue.int i
       | none => SqlValue.null))⟩

/-- `save_data(df, database_filename)`: write `df` as `disaster_messages`,
`index=False`, `if_exists='replace'`. -/
def save_data (t : CleanTable) (store : Store) : Except PdError Store :=
  to_sql (sqlOfClean t) "disaster_messages" store .replaceMode false

/-! Concrete tables used by witnesses and counterexamples. -/

/-- The spec's worked example, with the latent-defect token `related-2`. -/
def exDefect : List JoinedRow :=
  [⟨1, "help", none, "direct", "related-2;request-1"⟩]

/-- The row `exDefect` cleans to: `related = 2`, `request = 1`. -/
def exDefectRow : CleanedRow := ⟨1, "help", none, "direct", [some 2, some 1]⟩

/-- The table `exDefect` cleans to. -/
def exDefectOut : CleanTable := ⟨["related", "request"], [exDefectRow]⟩

/-- Two rows whose second has fewer tokens than row 0. -/
def exShortRow : List JoinedRow :=
  [⟨1, "m", none, "g", "a-1;b-0"⟩, ⟨2, "n", none, "g", "a-1"⟩]

/-- Two rows whose second has more tokens than row 0. -/
def exLongRow : List JoinedRow :=
  [⟨1, "m", none, "g", "a-1"⟩, ⟨2, "n", none, "g", "b-1;c-2"⟩]

/-- A one-row table sharing its row 0 with `exLongRow`. -/
def exSingle : List JoinedRow := [⟨1, "m", none, "g", "a-1"⟩]

/-- A two-row table sharing its row 0 with `exSingle`. -/
def exSameHead : List JoinedRow :=
  [⟨1, "m", none, "g", "a-1"⟩, ⟨9, "z", none, "h", "b-7"⟩]

/-- Two distinct rows that clean to the same cleaned row
(`x-1` and `x-01` both end in `1`). -/
def exCollapse : List JoinedRow :=
  [⟨1, "a", none, "g", "x-1"⟩, ⟨1, "a", none, "g", "x-01"⟩]

/-- An aligned table whose only flaw is a non-numeric trailing character. -/
def exBadChar : List JoinedRow := [⟨1, "m", none, "g", "a-1;b-x"⟩]

/-- Messages input for the join witness: a duplicated `id`. -/
def exMessages : List MessageRow :=
  [⟨1, "m1", none, "g1"⟩, ⟨1, "m1b", none, "g1"⟩, ⟨3, "m3", none, "g2"⟩]

/-- Categories input for the join witness: `id` 1 twice, 2 once. -/
def exCategories : List CategoryRow :=
  [⟨1, "a-1"⟩, ⟨1, "a-0"⟩, ⟨2, "a-1"⟩]

/-- One row of `load_data exMessages exCategories`. -/
def exJoinedRow : JoinedRow := ⟨1, "m1", none, "g1", "a-1"⟩

/-- A store holding a `disaster_messages` relation with old columns. -/
def exStore : Store := fun n =>
  if n = "disaster_messages" then some ⟨["old1", "old2"], []⟩ else none

/-- The store after saving `exDefectOut` over `exStore`. -/
def exStoreOut : Store := fun n =>
  if n = "disaster_messages" then some (sqlOfClean exDefectOut) else exStore n

/-! Helper lemmas about deduplication. -/

theorem mem_of_mem_dedupSeen {α : Type} [DecidableEq α] {a : α} :
    ∀ {seen l : List α}, a ∈ dedupSeen seen l → a ∈ l := by
  intro seen l
  induction l generalizing seen with
  | nil => intro h; simp [dedupSeen] at h
  | cons b l ih =>
    intro h
    by_cases hb : b ∈ seen
    · simp only [dedupSeen, if_pos hb] at h
      exact List.mem_cons_of_mem _ (ih h)
    · simp only [dedupSeen, if_neg hb] at h
      rcases List.mem_cons.mp h with h | h
      · exact h ▸ List.mem_cons_self _ _
      · exact List.mem_cons_of_mem _ (ih h)

theorem dedupSeen_nodup_notin {α : Type} [DecidableEq α] :
    ∀ (seen l : List α),
      (dedupSeen seen l).Nodup ∧ ∀ a ∈ dedupSeen seen l, a ∉ seen := by
  intro seen l
  induction l generalizing seen with
  | nil => simp [dedupSeen]
  | cons b l ih =>
    by_cases hb : b ∈ seen
    · simpa [dedupSeen, hb] using ih seen
    · have h2 := ih (b :: seen)
      simp only [dedupSeen, if_neg hb]
      constructor
      · refine List.nodup_cons.mpr ⟨?_, h2.1⟩
        intro hmem
        exact (h2.2 b hmem) (List.mem_cons_self _ _)
      · intro a ha
        rcases List.mem_cons.mp ha with h | h
        · exact h ▸ hb
        · intro hseen
          exact (h2.2 a h) (List.mem_cons_of_mem _ hseen)

theorem dedupSeen_eq_self {α : Type} [DecidableEq α] :
    ∀ (seen l : List α), l.Nodup → (∀ a ∈ l, a ∉ seen) →
      dedupSeen seen l = l := by
  intro seen l
  induction l generalizing seen with
  | nil => intro _ _; rfl
  | cons b l ih =>
    intro hnd hdisj
    have hb : b ∉ seen := hdisj b (List.mem_cons_self _ _)
    have hnd' := List.nodup_cons.mp hnd
    simp only [dedupSeen, if_neg hb]
    congr 1
    refine ih (b :: seen) hnd'.2 (fun a ha hmem => ?_)
    rcases List.mem_cons.mp hmem with h | h
    · exact hnd'.1 (h ▸ ha)
    · exact hdisj a (List.mem_cons_of_mem _ ha) h

theorem dropDuplicates_nodup {α : Type} [DecidableEq α] (l : List α) :
    (dropDuplicates l).Nodup :=
  (dedupSeen_nodup_notin [] l).1

theorem mem_of_mem_dropDuplicates {α : Type} [DecidableEq α] {a : α}
    {l : List α} (h : a ∈ dropDuplicates l) : a ∈ l :=
  mem_of_mem_dedupSeen h

theorem dropDuplicates_eq_self {α : Type} [DecidableEq α] {l : List α}
    (h : l.Nodup) : dropDuplicates l = l :=
  dedupSeen_eq_self [] l h (by simp)

theorem dropDuplicates_idem {α : Type} [DecidableEq α] (l : List α) :
    dropDuplicates (dropDuplicates l) = dropDuplicates l :=
  dropDuplicates_eq_self (dropDuplicates_nodup l)

/-! Helper lemmas about the expanded token frame. -/

theorem nCols_cons (a : JoinedRow) (df : List JoinedRow) :
    nCols (a :: df) = max (tokensOf a).length (nCols df) := rfl

theorem tokens_length_le_nCols : ∀ {df : List JoinedRow} {r : JoinedRow},
    r ∈ df → (tokensOf r).length ≤ nCols df := by
  intro df
  induction df with
  | nil => intro r h; cases h
  | cons a df ih =>
    intro r h
    rw [nCols_cons]
    rcases List.mem_cons.mp h with h | h
    · exact h ▸ Nat.le_max_left _ _
    · exact Nat.le_trans (ih h) (Nat.le_max_right _ _)

theorem deriveNames_cons (r0 : JoinedRow) (rest : List JoinedRow) :
    deriveNames (r0 :: rest) =
      if (tokensOf r0).length = nCols (r0 :: rest) then
        .ok ((tokensOf r0).map namePart)
      else .error .attributeError := rfl

theorem deriveNames_ok {df : List JoinedRow} {ns : List String}
    (h : deriveNames df = .ok ns) :
    ∃ r0 rest, df = r0 :: rest ∧ (tokensOf r0).length = nCols df ∧
      ns = (tokensOf r0).map namePart := by
  cases df with
  | nil => simp [deriveNames] at h
  | cons r0 rest =>
    simp only [deriveNames] at h
    split at h
    next hc =>
      injection h with h
      exact ⟨r0, rest, rfl, hc, h.symm⟩
    next => cases h

theorem clean_data_ok {df : List JoinedRow} {out : CleanTable}
    (h : clean_data df = .ok out) :
    deriveNames df = .ok out.catNames ∧
    firstColError out.catNames df (List.range (nCols df)) = none ∧
    out.rows = dropDuplicates (cleanedRows df) := by
  unfold clean_data at h
  split at h
  next => cases h
  next ns hd =>
    unfold cleanBody at h
    split at h
    next => cases h
    next hf =>
      injection h with h
      subst h
      exact ⟨hd, hf, rfl⟩

theorem clean_data_error_left {df : List JoinedRow} {e : PdError}
    (h : deriveNames df = .error e) : clean_data df = .error e := by
  unfold clean_data
  rw [h]

theorem clean_data_error_right {df : List JoinedRow} {ns : List String}
    {e : PdError} (h1 : deriveNames df = .ok ns)
    (h2 : firstColError ns df (List.range (nCols df)) = some e) :
    clean_data df = .error e := by
  unfold clean_data
  rw [h1]
  show cleanBody ns df = .error e
  unfold cleanBody
  rw [h2]

theorem clean_data_ok_of {df : List JoinedRow} {ns : List String}
    (h1 : deriveNames df = .ok ns)
    (h2 : firstColError ns df (List.range (nCols df)) = none) :
    clean_data df = .ok ⟨ns, dropDuplicates (cleanedRows df)⟩ := by
  unfold clean_data
  rw [h1]
  show cleanBody ns df = .ok ⟨ns, dropDuplicates (cleanedRows df)⟩
  unfold cleanBody
  rw [h2]

/-! Helper lemmas about value coercion. -/

theorem toNumericChar_error {oc : Option Char} {e : PdError}
    (h : toNumericChar oc = .error e) : e = .valueError := by
  unfold toNumericChar at h
  split at h
  next => cases h
  next c =>
    split at h
    · cases h
    · injection h with h
      exact h.symm

theorem coerceCell_error {cell : Option (List Char)} {e : PdError}
    (h : coerceCell cell = .error e) : e = .valueError := by
  unfold coerceCell at h
  exact toNumericChar_error h

theorem coerceColumn_error {l : List (Option (List Char))} :
    ∀ {e : PdError}, coerceColumn l = .error e → e = .valueError := by
  induction l with
  | nil => intro e h; simp [coerceColumn] at h
  | cons cell rest ih =>
    intro e h
    unfold coerceColumn at h
    split at h
    next e2 hc =>
      injection h with h
      exact h ▸ coerceCell_error hc
    next v hc =>
      split at h
      next e2 hr =>
        injection h with h
        exact h ▸ ih hr
      next => cases h

theorem coerceColumn_ok_all {l : List (Option (List Char))} :
    ∀ {vs : List (Option Int)}, coerceColumn l = .ok vs →
      ∀ cell ∈ l, ∃ v, coerceCell cell = .ok v := by
  induction l with
  | nil => intro vs _ cell hc; cases hc
  | cons c rest ih =>
    intro vs h
    unfold coerceColumn at h
    split at h
    next => cases h
    next v hc =>
      split at h
      next => cases h
      next ws hr =>
        intro cell hcell
        rcases List.mem_cons.mp hcell with h2 | h2
        · subst h2
          exact ⟨v, hc⟩
        · exact ih hr cell h2

theorem coerceColumn_error_of_mem {l : List (Option (List Char))}
    {cell : Option (List Char)} (hmem : cell ∈ l) {e : PdError}
    (h : coerceCell cell = .error e) : ∃ e2, coerceColumn l = .error e2 := by
  induction l with
  | nil => cases hmem
  | cons c rest ih =>
    rcases List.mem_cons.mp hmem with h2 | h2
    · subst h2
      exact ⟨e, by unfold coerceColumn; rw [h]⟩
    · cases hc : coerceCell c with
      | error e2 => exact ⟨e2, by unfold coerceColumn; rw [hc]⟩
      | ok v =>
        rcases ih h2 with ⟨e2, he2⟩
        exact ⟨e2, by unfold coerceColumn; rw [hc, he2]⟩

theorem firstColError_none_all {names : List String} {df : List JoinedRow} :
    ∀ {js : List Nat}, firstColError names df js = none →
      ∀ j ∈ js, ∃ vs, coerceColumn (colCells df j) = .ok vs := by
  intro js
  induction js with
  | nil => intro _ j hj; cases hj
  | cons j0 js ih =>
    intro h j hj
    unfold firstColError at h
    split at h
    · cases h
    · cases hcol : coerceColumn (colCells df j0) with
      | error e => rw [hcol] at h; cases h
      | ok vs =>
        rw [hcol] at h
        rcases List.mem_cons.mp hj with h2 | h2
        · subst h2; exact ⟨vs, hcol⟩
        · exact ih h j h2

theorem firstColError_some {names : List String} {df : List JoinedRow}
    (hnd : names.Nodup) :
    ∀ {js : List Nat} {e : PdError}, firstColError names df js = some e →
      e = .valueError := by
  intro js
  induction js with
  | nil => intro e h; cases h
  | cons j0 js ih =>
    intro e h
    unfold firstColError at h
    split at h
    next hc =>
      exfalso
      have hle := List.nodup_iff_count_le_one.mp hnd (names.getD j0 "")
      omega
    next =>
      cases hcol : coerceColumn (colCells df j0) with
      | error e2 =>
        rw [hcol] at h
        injection h with h
        exact h ▸ coerceColumn_error hcol
      | ok vs => rw [hcol] at h; exact ih h

theorem firstColError_some_of_bad {names : List String} {df : List JoinedRow}
    (hnd : names.Nodup) :
    ∀ {js : List Nat} {j : Nat}, j ∈ js →
      ∀ {e : PdError}, coerceColumn (colCells df j) = .error e →
        firstColError names df js = some PdError.valueError := by
  intro js
  induction js with
  | nil => intro j hj; cases hj
  | cons j0 js ih =>
    intro j hj e hcol
    have hle := List.nodup_iff_count_le_one.mp hnd (names.getD j0 "")
    have hneg : ¬ 1 < names.count (names.getD j0 "") := by omega
    unfold firstColError
    rw [if_neg hneg]
    rcases List.mem_cons.mp hj with h2 | h2
    · subst h2
      have he := coerceColumn_error hcol
      subst he
      rw [hcol]
    · cases hcol0 : coerceColumn (colCells df j0) with
      | error e0 =>
        have he0 := coerceColumn_error hcol0
        subst he0
        rfl
      | ok vs => exact ih h2 hcol

theorem cleanRow_cats_getElem {n : Nat} {r : JoinedRow} {j : Nat} (hj : j < n) :
    (cleanRow n r).cats[j]? = some (cellValue (tokensOf r)[j]?) := by
  simp [cleanRow, List.getElem?_range hj]

theorem mem_rows_of_clean_ok {df : List JoinedRow} {out : CleanTable}
    (h : clean_data df = .ok out) {r : CleanedRow} (hr : r ∈ out.rows) :
    ∃ a ∈ df, r = cleanRow (nCols df) a := by
  obtain ⟨-, -, hrows⟩ := clean_data_ok h
  rw [hrows] at hr
  have hmem := mem_of_mem_dropDuplicates hr
  simp only [cleanedRows] at hmem
  rcases List.mem_map.mp hmem with ⟨a, ha, hae⟩
  exact ⟨a, ha, hae.symm⟩

theorem clean_ok_cell_ok {df : List JoinedRow} {out : CleanTable}
    (h : clean_data df = .ok out) {a : JoinedRow} (ha : a ∈ df) {j : Nat}
    (hj : j < nCols df) : ∃ v, coerceCell (tokensOf a)[j]? = .ok v := by
  obtain ⟨hd, hf, -⟩ := clean_data_ok h
  obtain ⟨vs, hvs⟩ := firstColError_none_all hf j (List.mem_range.mpr hj)
  exact coerceColumn_ok_all hvs _ (List.mem_map_of_mem _ ha)

theorem coerceCell_ok_digit {cell : Option (List Char)} {c : Char}
    {v : Option Int} (hlast : (strCast cell).getLast? = some c)
    (hok : coerceCell cell = .ok v) :
    v = some (Int.ofNat (c.toNat - '0'.toNat)) := by
  unfold coerceCell at hok
  rw [hlast] at hok
  simp only [toNumericChar] at hok
  split at hok
  · injection hok with h
    exact h.symm
  · cases hok

theorem cellValue_of_ok {cell : Option (List Char)} {v : Option Int}
    (h : coerceCell cell = .ok v) : cellValue cell = v := by
  unfold cellValue
  rw [h]

theorem coerceColumn_error_bad_cell {l : List (Option (List Char))} :
    ∀ {e : PdError}, coerceColumn l = .error e →
      ∃ cell ∈ l, ∃ e2, coerceCell cell = .error e2 := by
  induction l with
  | nil => intro e h; simp [coerceColumn] at h
  | cons c rest ih =>
    intro e h
    unfold coerceColumn at h
    split at h
    next e2 hc =>
      exact ⟨c, List.mem_cons_self _ _, e2, hc⟩
    next v hc =>
      split at h
      next e2 hr =>
        obtain ⟨cell, hcell, e3, hc3⟩ := ih hr
        exact ⟨cell, List.mem_cons_of_mem _ hcell, e3, hc3⟩
      next => cases h

theorem firstColError_some_bad_cell {names : List String} {df : List JoinedRow}
    (hnd : names.Nodup) :
    ∀ {js : List Nat} {e : PdError}, firstColError names df js = some e →
      ∃ j ∈ js, ∃ cell ∈ colCells df j, ∃ e2, coerceCell cell = .error e2 := by
  intro js
  induction js with
  | nil => intro e h; cases h
  | cons j0 js ih =>
    intro e h
    unfold firstColError at h
    split at h
    next hc =>
      exfalso
      have hle := List.nodup_iff_count_le_one.mp hnd (names.getD j0 "")
      omega
    next =>
      cases hcol : coerceColumn (colCells df j0) with
      | error e2 =>
        obtain ⟨cell, hcell, e3, hc3⟩ := coerceColumn_error_bad_cell hcol
        exact ⟨j0, List.mem_cons_self _ _, cell, hcell, e3, hc3⟩
      | ok vs =>
        rw [hcol] at h
        obtain ⟨j, hj, hrest⟩ := ih h
        exact ⟨j, List.mem_cons_of_mem _ hj, hrest⟩

theorem coerceCell_error_iff {cell : Option (List Char)} :
    (∃ e, coerceCell cell = .error e) ↔
    ((strCast cell).getLast?.any (fun c => !c.isDigit)) = true := by
  unfold coerceCell
  cases hl : (strCast cell).getLast? with
  | none => simp [toNumericChar]
  | some c =>
    by_cases hc : c.isDigit
    · simp [toNumericChar, hc]
    · simp [toNumericChar, hc]

theorem pad_cell_error {df : List JoinedRow} {r : JoinedRow} (hr : r ∈ df) :
    ∃ e2, coerceColumn (colCells df ((tokensOf r).length)) = .error e2 := by
  have hcell : (tokensOf r)[(tokensOf r).length]? = none :=
    List.getElem?_eq_none (Nat.le_refl _)
  have hbad : coerceCell ((tokensOf r)[(tokensOf r).length]?) =
      .error .valueError := by
    rw [hcell]
    decide
  have hmem : (tokensOf r)[(tokensOf r).length]? ∈
      colCells df ((tokensOf r).length) := by
    unfold colCells
    exact List.mem_map_of_mem _ hr
  exact coerceColumn_error_of_mem hmem hbad

/-! The claims. -/

/-- C10: `clean` is partial on the empty table: with zero rows there is no
row 0 to derive column names from (`iloc[0]` raises `IndexError`), so
`clean_data` fails instead of returning an empty cleaned table. -/
theorem clean_data_empty_fails :
    clean_data ([] : List JoinedRow) = .error .indexError := rfl

/-- C6: the dedup step (removal of rows identical across every column,
`df.drop_duplicates()`) is idempotent: applying it twice to any list of
cleaned rows yields the same list as applying it once. -/
theorem dropDuplicates_idempotent (l : List CleanedRow) :
    dropDuplicates (dropDuplicates l) = dropDuplicates l :=
  dropDuplicates_idem l

/-- C1: for every input table and every row of the cleaned output, the value
stored in each category column is the integer parsed from the last character
of the string-cast token at that position; in particular the token
`related-2` yields the value `2`, unmodified and not clamped to 0 or 1
despite the documented intent to produce binary values. -/
theorem clean_values_last_char :
    (∀ (df : List JoinedRow) (out : CleanTable), clean_data df = .ok out →
      ∀ r ∈ out.rows, ∃ a ∈ df, r = cleanRow (nCols df) a ∧
        ∀ j, j < nCols df → ∀ c : Char,
          (strCast (tokensOf a)[j]?).getLast? = some c →
          r.cats[j]? = some (some (Int.ofNat (c.toNat - '0'.toNat)))) ∧
    clean_data exDefect = .ok exDefectOut := by
  constructor
  · intro df out h r hr
    obtain ⟨a, ha, hra⟩ := mem_rows_of_clean_ok h hr
    refine ⟨a, ha, hra, ?_⟩
    intro j hj c hc
    obtain ⟨v, hv⟩ := clean_ok_cell_ok h ha hj
    have hval := coerceCell_ok_digit hc hv
    rw [hra, cleanRow_cats_getElem hj, cellValue_of_ok hv, hval]
  · decide

/-- Witness for C1 at the spec's latent-defect example: the `related` column
of the cleaned row holds the digit parsed from the last character of
`related-2`, namely 2. -/
theorem clean_values_last_char_witness :
    exDefectRow.cats[0]? = some (some (Int.ofNat ('2'.toNat - '0'.toNat))) := by
  obtain ⟨a, ha, hra, hval⟩ :=
    clean_values_last_char.1 exDefect exDefectOut (by decide) exDefectRow
      (by decide)
  simp only [exDefect, List.mem_singleton] at ha
  subst ha
  exact hval 0 (by decide) '2' (by decide)

/-- C9: every row surviving `clean` keeps the values of all columns other
than `categories` (id, message, original, genre) from a joined input row;
only `categories` is removed and replaced by the new scalar columns. -/
theorem clean_preserves_frame (df : List JoinedRow) (out : CleanTable)
    (h : clean_data df = .ok out) :
    ∀ r ∈ out.rows, ∃ a ∈ df,
      r.id = a.id ∧ r.message = a.message ∧ r.original = a.original ∧
        r.genre = a.genre := by
  intro r hr
  obtain ⟨a, ha, hra⟩ := mem_rows_of_clean_ok h hr
  subst hra
  exact ⟨a, ha, rfl, rfl, rfl, rfl⟩

/-- Witness for C9 at the spec's worked example. -/
theorem clean_preserves_frame_witness :
    ∃ a ∈ exDefect, exDefectRow.id = a.id ∧
      exDefectRow.message = a.message ∧
      exDefectRow.original = a.original ∧ exDefectRow.genre = a.genre :=
  clean_preserves_frame exDefect exDefectOut (by decide) exDefectRow (by decide)

/-- C4 counterexample: `exCollapse` holds two distinct rows (their
`categories` strings differ: `x-1` vs `x-01`), yet both clean to the same
row, so `drop_duplicates` shrinks the table: `clean` returns 1 row from 2. -/
theorem clean_rowcount_counterexample :
    exCollapse.Nodup ∧
    clean_data exCollapse = .ok ⟨["x"], [⟨1, "a", none, "g", [some 1]⟩]⟩ ∧
    (⟨["x"], [⟨1, "a", none, "g", [some 1]⟩]⟩ : CleanTable).rows.length ≠
      exCollapse.length := by
  decide

/-- C4 amended: `clean` leaves the row count unchanged provided the rows are
still pairwise distinct after the categories-to-columns coercion; mere
distinctness of the raw input rows does not suffice, since distinct
`categories` strings can coerce to equal value vectors. -/
theorem clean_rowcount (df : List JoinedRow) (out : CleanTable)
    (h : clean_data df = .ok out) (hnd : (cleanedRows df).Nodup) :
    out.rows.length = df.length := by
  obtain ⟨-, -, hrows⟩ := clean_data_ok h
  rw [hrows, dropDuplicates_eq_self hnd]
  simp [cleanedRows]

/-- Witness for the amended C4 at the spec's worked example. -/
theorem clean_rowcount_witness : exDefectOut.rows.length = exDefect.length :=
  clean_rowcount exDefect exDefectOut (by decide) (by decide)

/-- C5 counterexample: `exSingle` and `exLongRow` have the same row-0
`categories` string `a-1`, yet name derivation yields `["a"]` for the first
and raises `AttributeError` for the second (row 0 is padded out to the wider
second row, and the pad value has no `split`), so the derived category
columns are not a function of row 0's string alone. -/
theorem clean_colnames_counterexample :
    exSingle.head? = some ⟨1, "m", none, "g", "a-1"⟩ ∧
    exLongRow.head? = some ⟨1, "m", none, "g", "a-1"⟩ ∧
    deriveNames exSingle = .ok ["a"] ∧
    deriveNames exLongRow = .error .attributeError ∧
    deriveNames exSingle ≠ deriveNames exLongRow := by
  decide

/-- C5 amended: whenever name derivation succeeds on two tables whose row-0
`categories` strings are equal, it yields the same column names in the same
order — the names are a pure function of row 0's string; whether derivation
succeeds at all, however, depends on the other rows' token counts. -/
theorem clean_colnames_deterministic (df1 df2 : List JoinedRow)
    (r1 r2 : JoinedRow) (ns1 ns2 : List String)
    (h1 : df1.head? = some r1) (h2 : df2.head? = some r2)
    (hcat : r1.categories = r2.categories)
    (hd1 : deriveNames df1 = .ok ns1) (hd2 : deriveNames df2 = .ok ns2) :
    ns1 = ns2 := by
  obtain ⟨a1, rest1, hdf1, -, hns1⟩ := deriveNames_ok hd1
  obtain ⟨a2, rest2, hdf2, -, hns2⟩ := deriveNames_ok hd2
  rw [hdf1] at h1
  rw [hdf2] at h2
  injection h1 with h1
  injection h2 with h2
  subst h1
  subst h2
  rw [hns1, hns2]
  unfold tokensOf
  rw [hcat]

/-- Witness for the amended C5: `exSingle` and `exSameHead` share row 0 and
both derivations succeed, with the same derived names. -/
theorem clean_colnames_deterministic_witness : (["a"] : List String) = ["a"] :=
  clean_colnames_deterministic exSingle exSameHead
    ⟨1, "m", none, "g", "a-1"⟩ ⟨1, "m", none, "g", "a-1"⟩ ["a"] ["a"]
    (by decide) (by decide) (by decide) (by decide) (by decide)

/-- C3 counterexample: in `exShortRow` the second row has fewer tokens than
row 0 (1 vs 2) and in `exLongRow` the second row has more; in both cases
`clean` rejects the whole table with an error instead of letting the row
survive misaligned. -/
theorem clean_misaligned_counterexample :
    clean_data exShortRow = .error .valueError ∧
    clean_data exLongRow = .error .attributeError ∧
    (tokensOf ⟨2, "n", none, "g", "a-1"⟩).length ≠
      (tokensOf ⟨1, "m", none, "g", "a-1;b-0"⟩).length := by
  decide

/-- C3 amended: a row whose token count differs from row 0's does not
survive misaligned — `clean` fails on the whole table: a row with more
tokens than row 0 makes name extraction fail with `AttributeError` (row 0 is
padded), and, when the derived names are distinct, a row with fewer tokens
than row 0 makes value coercion fail with `ParseError` (its pad string-casts
to `'None'`); in every case some error is raised. -/
theorem clean_misaligned_rejects (df : List JoinedRow) (r0 : JoinedRow)
    (rest : List JoinedRow) (hdf : df = r0 :: rest) (r : JoinedRow)
    (hr : r ∈ df) :
    ((tokensOf r).length ≠ (tokensOf r0).length →
      ∃ e, clean_data df = .error e) ∧
    ((tokensOf r0).length < (tokensOf r).length →
      clean_data df = .error .attributeError) ∧
    (∀ ns, deriveNames df = .ok ns → ns.Nodup →
      (tokensOf r).length < (tokensOf r0).length →
      clean_data df = .error .valueError) := by
  subst hdf
  have hle := tokens_length_le_nCols hr
  refine ⟨?_, ?_, ?_⟩
  · intro hne
    cases hd : deriveNames (r0 :: rest) with
    | error e => exact ⟨e, clean_data_error_left hd⟩
    | ok ns =>
      obtain ⟨a0, rest0, heq, hlen, -⟩ := deriveNames_ok hd
      injection heq with h1 h2
      subst h1
      have hk : (tokensOf r).length < nCols (r0 :: rest) := by omega
      cases hf : firstColError ns (r0 :: rest)
          (List.range (nCols (r0 :: rest))) with
      | some e => exact ⟨e, clean_data_error_right hd hf⟩
      | none =>
        exfalso
        obtain ⟨vs, hok⟩ := firstColError_none_all hf _ (List.mem_range.mpr hk)
        obtain ⟨e2, hcol⟩ := pad_cell_error hr
        rw [hok] at hcol
        cases hcol
  · intro hlt
    apply clean_data_error_left
    rw [deriveNames_cons]
    rw [if_neg (by omega)]
  · intro ns hd hnd hlt
    obtain ⟨a0, rest0, heq, hlen, -⟩ := deriveNames_ok hd
    injection heq with h1 h2
    subst h1
    have hk : (tokensOf r).length < nCols (r0 :: rest) := by omega
    obtain ⟨e2, hcol⟩ := pad_cell_error hr
    exact clean_data_error_right hd
      (firstColError_some_of_bad hnd (List.mem_range.mpr hk) hcol)

/-- Witness for the amended C3: the short second row of `exShortRow` makes
`clean` fail with `ParseError`. -/
theorem clean_misaligned_rejects_witness :
    clean_data exShortRow = .error .valueError :=
  (clean_misaligned_rejects exShortRow ⟨1, "m", none, "g", "a-1;b-0"⟩
      [⟨2, "n", none, "g", "a-1"⟩] rfl ⟨2, "n", none, "g", "a-1"⟩
      (by decide)).2.2 ["a", "b"] (by decide) (by decide) (by decide)

/-- C7 counterexample: every token of `exShortRow` ends in a digit, yet
`clean` raises `ParseError`: the second row is one token short, so its pad
cell string-casts to `'None'`, whose trailing `'e'` fails integer
coercion. -/
theorem clean_parse_error_counterexample :
    (∀ r ∈ exShortRow, ∀ tok ∈ tokensOf r,
      tok.getLast?.any (fun c => c.isDigit) = true) ∧
    clean_data exShortRow = .error .valueError := by
  decide

/-- C7 amended: once name extraction has succeeded (row 0 spans all columns)
and the derived names are distinct, `clean` fails with `ParseError` exactly
when some cell of the expanded token frame — a real token or the string-cast
`'None'` pad of a short row — has a last character that is not a digit. -/
theorem clean_parse_error_iff (df : List JoinedRow) (ns : List String)
    (hd : deriveNames df = .ok ns) (hnd : ns.Nodup) :
    clean_data df = .error .valueError ↔
    ∃ r ∈ df, ∃ j ∈ List.range (nCols df),
      (strCast (tokensOf r)[j]?).getLast?.any (fun c => !c.isDigit) = true := by
  constructor
  · intro h
    cases hf : firstColError ns df (List.range (nCols df)) with
    | none =>
      rw [clean_data_ok_of hd hf] at h
      cases h
    | some e =>
      obtain ⟨j, hj, cell, hcell, e2, hc⟩ := firstColError_some_bad_cell hnd hf
      simp only [colCells] at hcell
      obtain ⟨r, hrdf, hrc⟩ := List.mem_map.mp hcell
      refine ⟨r, hrdf, j, hj, ?_⟩
      rw [hrc]
      exact coerceCell_error_iff.mp ⟨e2, hc⟩
  · rintro ⟨r, hrdf, j, hj, hbad⟩
    obtain ⟨e, hc⟩ := coerceCell_error_iff.mpr hbad
    have hmem : (tokensOf r)[j]? ∈ colCells df j := by
      unfold colCells
      exact List.mem_map_of_mem _ hrdf
    obtain ⟨e2, hcol⟩ := coerceColumn_error_of_mem hmem hc
    exact clean_data_error_right hd (firstColError_some_of_bad hnd hj hcol)

/-- Witness for the amended C7: the token `b-x` of `exBadChar` has a
non-digit last character, so `clean` fails with `ParseError`. -/
theorem clean_parse_error_iff_witness :
    clean_data exBadChar = .error .valueError :=
  (clean_parse_error_iff exBadChar ["a", "b"] (by decide) (by decide)).mpr
    (by decide)

/-- C2: `load` is an inner join on `id`: every output row's `id` occurs in
both inputs (no row survives whose `id` is absent from either source), and
for each key the number of output rows is the product of that key's
multiplicities in the two inputs — one row per matching pair. -/
theorem load_data_inner_join (ms : List MessageRow) (cs : List CategoryRow) :
    (∀ r ∈ load_data ms cs,
      (∃ m ∈ ms, m.id = r.id) ∧ (∃ c ∈ cs, c.id = r.id)) ∧
    (∀ k : Int, (load_data ms cs).countP (fun r => decide (r.id = k)) =
      ms.countP (fun m => decide (m.id = k)) *
        cs.countP (fun c => decide (c.id = k))) := by
  constructor
  · intro r hr
    unfold load_data at hr
    obtain ⟨m, hm, hr2⟩ := List.mem_flatMap.mp hr
    obtain ⟨c, hc, hrc⟩ := List.mem_map.mp hr2
    have hcid := of_decide_eq_true (List.mem_filter.mp hc).2
    constructor
    · exact ⟨m, hm, by rw [← hrc]; rfl⟩
    · refine ⟨c, (List.mem_filter.mp hc).1, ?_⟩
      rw [← hrc]
      exact hcid
  · intro k
    induction ms with
    | nil => simp [load_data]
    | cons m ms ih =>
      have hstep : load_data (m :: ms) cs =
          ((cs.filter (fun c => decide (c.id = m.id))).map (mergeRows m)) ++
            load_data ms cs := rfl
      rw [hstep, List.countP_append, ih, List.countP_map, List.countP_cons,
        Nat.add_mul]
      simp only [decide_eq_true_eq]
      by_cases hmk : m.id = k
      · subst hmk
        rw [if_pos rfl, Nat.one_mul]
        have hblock :
            List.countP ((fun r => decide (r.id = m.id)) ∘ mergeRows m)
              (cs.filter (fun c => decide (c.id = m.id))) =
            cs.countP (fun c => decide (c.id = m.id)) := by
          rw [List.countP_eq_length.mpr
                (fun c _ => by simp [Function.comp, mergeRows]),
              List.countP_eq_length_filter]
        rw [hblock]
        exact Nat.add_comm _ _
      · rw [if_neg hmk, Nat.zero_mul, Nat.add_zero]
        rw [List.countP_eq_zero.mpr
              (fun c _ => by simp [Function.comp, mergeRows]; exact hmk)]
        exact Nat.zero_add _

/-- Witness for C2 at concrete tables with duplicated `id`s: the row
`exJoinedRow` draws its `id` from both inputs, and key 1 (twice in the
messages, twice in the categories) yields 2 * 2 rows. -/
theorem load_data_inner_join_witness :
    ((∃ m ∈ exMessages, m.id = exJoinedRow.id) ∧
      (∃ c ∈ exCategories, c.id = exJoinedRow.id)) ∧
    (load_data exMessages exCategories).countP
        (fun r => decide (r.id = (1 : Int))) =
      exMessages.countP (fun m => decide (m.id = (1 : Int))) *
        exCategories.countP (fun c => decide (c.id = (1 : Int))) :=
  ⟨(load_data_inner_join exMessages exCategories).1 exJoinedRow (by decide),
   (load_data_inner_join exMessages exCategories).2 1⟩

/-- C8: `save` never fails in replace mode and replaces the
`disaster_messages` relation wholesale: afterwards the store holds exactly
the written table under that name regardless of what was there before (old
columns gone), the written header consists of exactly the dataframe's
columns with no surrogate row-index column prepended, and every other
relation is untouched. -/
theorem save_data_replaces (t : CleanTable) (store : Store) :
    ∃ st2, save_data t store = .ok st2 ∧
      st2 "disaster_messages" = some (sqlOfClean t) ∧
      (sqlOfClean t).header =
        "id" :: "message" :: "original" :: "genre" :: t.catNames ∧
      ∀ n, n ≠ "disaster_messages" → st2 n = store n := by
  refine ⟨fun n => if n = "disaster_messages" then some (sqlOfClean t)
    else store n, rfl, ?_, rfl, ?_⟩
  · exact if_pos rfl
  · exact fun n hn => if_neg hn

/-- Witness for C8: saving over `exStore`, whose `disaster_messages` table
has the old columns `old1`, `old2`, leaves exactly the new table there and
the relation `other` untouched. -/
theorem save_data_replaces_witness :
    exStoreOut "disaster_messages" = some (sqlOfClean exDefectOut) ∧
    exStoreOut "other" = exStore "other" := by
  obtain ⟨st2, hsave, hmain, -, hframe⟩ :=
    save_data_replaces exDefectOut exStore
  have h0 : save_data exDefectOut exStore = Except.ok exStoreOut := rfl
  rw [hsave] at h0
  injection h0 with h2
  subst h2
  exact ⟨hmain, hframe "other" (by decide)⟩
